import Mathlib

/-!
Verification of the remote-asset acquisition subsystem of `mirdata`
(`mirdata/download_utils.py`), via a shallow embedding in Lean 4.

Paths, URLs, file contents and digests are modelled as `List Char`.
The filesystem is an association list from paths to contents, plus a set of
existing directories; observable side effects (network transfer attempts,
printed messages, archive extraction, file removal) are recorded in an
event trace appended in chronological order.
-/

set_option autoImplicit false

namespace Mirdata

abbrev Path := List Char
abbrev Content := List Char

/-- Turn a string literal into a character-list path/content. -/
def strL (s : String) : Path := s.toList

/-- Predicate `startsWith needle hay` : `needle` occurs at the beginning of `hay`
(Python `hay.startswith(needle)`). -/
def startsWith : Path → Path → Bool
  | [], _ => true
  | _ :: _, [] => false
  | a :: as, b :: bs => a = b && startsWith as bs

/-- Predicate `containsStr needle hay` : `needle` occurs as a contiguous substring of
`hay` (Python `needle in hay`). -/
def containsStr (needle : Path) : Path → Bool
  | [] => needle.isEmpty
  | b :: bs => startsWith needle (b :: bs) || containsStr needle bs

/-- Index of the last occurrence of `c` in the list, `-1` if absent
(Python `p.rfind(c)`). -/
def rfind (c : Char) : Path → Int
  | [] => -1
  | a :: rest =>
    if 0 ≤ rfind c rest then rfind c rest + 1
    else if a = c then 0 else -1

/-- CPython `posixpath.splitext` helper: is there an index strictly between
`s` (last separator) and `d` (last dot) holding a character other than
`'.'`?  (CPython scans `filenameIndex` from `sepIndex+1` up to `dotIndex`.) -/
def hasNonDot (p : Path) (s d : Int) : Bool :=
  (List.range p.length).any fun i =>
    decide (s < (i : Int)) && decide ((i : Int) < d) && decide (p.getD i '.' ≠ '.')

/-- The extension component of CPython `posixpath.splitext`, i.e.
`os.path.splitext(p)[-1]`: the suffix from the last `'.'` that lies after the
last `'/'`, provided the basename is not entirely leading dots. -/
def splitextExt (p : Path) : Path :=
  if rfind '/' p < rfind '.' p then
    if hasNonDot p (rfind '/' p) (rfind '.' p) then p.drop (rfind '.' p).toNat
    else []
  else []

/-- CPython `posixpath.join` for two components. -/
def pathJoin (a b : Path) : Path :=
  if b.head? = some '/' then b
  else if a = [] then b
  else if a.getLast? = some '/' then a ++ b
  else a ++ '/' :: b

/-- Strip trailing slash characters (CPython rstrip of the slash). -/
def dropTrailingSlashes (p : Path) : Path :=
  (p.reverse.dropWhile fun c => decide (c = '/')).reverse

/-- CPython `posixpath.dirname`: everything up to and including the last
`'/'`, with trailing slashes stripped unless the head is all slashes. -/
def dirname (p : Path) : Path :=
  let i := rfind '/' p
  if i < 0 then []
  else
    let head := p.take (i.toNat + 1)
    if head.all (fun c => decide (c = '/')) then head else dropTrailingSlashes head

/-- The three archive kinds the downloader distinguishes. -/
inductive ArchiveKind
  | zip
  | tar
  | plain
deriving DecidableEq, Repr

/-- Archive-kind classification of `downloader` (download_utils.py lines
85–93): `extension = os.path.splitext(url)[-1]`, then
`.zip` in extension → zip, else `.tar.gz` in extension or
`.tar` in extension → tar, else plain. -/
def classify (url : Path) : ArchiveKind :=
  if containsStr (strL ".zip") (splitextExt url) then ArchiveKind.zip
  else if containsStr (strL ".tar.gz") (splitextExt url)
      || containsStr (strL ".tar") (splitextExt url) then
    ArchiveKind.tar
  else ArchiveKind.plain


/-! ## Data model: remote assets, filesystem state, observable events -/

/-- The `RemoteFileMetadata` namedtuple of download_utils.py:
`(filename, url, checksum, destination_dir)`. -/
structure RemoteFileMetadata where
  filename : Path
  url : Path
  checksum : Path
  destination_dir : Option Path
deriving DecidableEq, Repr

/-- Observable side effects, recorded chronologically: a network transfer
attempt (`urllib.request.urlretrieve`), a `print`, a call to
`extractall`, an `os.remove`. -/
inductive Event
  | transfer (url : Path)
  | printed (msg : Path)
  | extracted (archive : Path)
  | removed (p : Path)
deriving DecidableEq, Repr

/-- Python exceptions raised by the code under study. -/
inductive Err
  | typeError
  | keyError (k : Path)
  | attributeError
  | ioError (msg : Path)
  | raised (e : Path)
  | fileMissing (p : Path)
  | badArchive (p : Path)
deriving DecidableEq, Repr

/-- The world the code mutates: files on disk (path ↦ content), the set of
existing directories, and the chronological event trace. -/
structure State where
  fs : List (Path × Content)
  dirs : List Path
  events : List Event
deriving DecidableEq, Repr

/-- Association-list lookup (first binding wins). -/
def lookupKey {α : Type} (k : Path) : List (Path × α) → Option α
  | [] => none
  | kv :: rest => if kv.1 = k then some kv.2 else lookupKey k rest

def getFile (p : Path) (fs : List (Path × Content)) : Option Content :=
  lookupKey p fs

def fileExists (p : Path) (fs : List (Path × Content)) : Bool :=
  (getFile p fs).isSome

/-- Write (or overwrite) the file at `p`. -/
def setFile (p : Path) (c : Content) (fs : List (Path × Content)) :
    List (Path × Content) :=
  (p, c) :: fs.filter fun kv => decide (kv.1 ≠ p)

/-- Python `os.remove p`. -/
def removeFile (p : Path) (fs : List (Path × Content)) : List (Path × Content) :=
  fs.filter fun kv => decide (kv.1 ≠ p)

def dirExists (p : Path) (ds : List Path) : Bool := decide (p ∈ ds)

/-- Python `if not os.path.exists(d): os.makedirs(d)` — touches only `dirs`. -/
def ensureDir (p : Path) (st : State) : State :=
  if dirExists p st.dirs then st else { st with dirs := p :: st.dirs }

/-- Modelled from the spec: `mirdata.utils.md5` (imported by
download_utils.py but not part of src/) computes a hex digest of the bytes
of a file, a pure function of the file content.  We model it as an arbitrary
digest function passed as a parameter. -/
def DigestFn : Type := Content → Path

/-- The network: maps a URL to the fetched content, or to the transport
exception `urllib` raises (connection reset, timeout, non-success status). -/
def NetFn : Type := Path → Except Path Content

/-- An archive reader (`zipfile.ZipFile` / `tarfile.open` + entry listing):
maps archive bytes to the entries `(relative path, content)`, or `none` when
the bytes are not a readable archive. -/
def ArchiveFn : Type := Content → Option (List (Path × Content))

/-! ## Fetcher: `download_from_remote` -/

/-- The directory an asset is saved into (download_utils.py lines 139–142). -/
def downloadDir (remote : RemoteFileMetadata) (save_dir : Path) : Path :=
  match remote.destination_dir with
  | none => save_dir
  | some d => pathJoin save_dir d

/-- The on-disk path of an asset: `os.path.join(download_dir, filename)`. -/
def downloadPath (remote : RemoteFileMetadata) (save_dir : Path) : Path :=
  pathJoin (downloadDir remote save_dir) remote.filename

/-- The message printed when `urlretrieve` raises (lines 161–170);
it embeds the failing URL. -/
def downloadFailMsg (url : Path) : Path :=
  strL "mirdata failed to download the dataset from " ++ url ++
    strL "! Please try again in a few minutes. If this error persists, please raise an issue at https://github.com/mir-dataset-loaders/mirdata, and tag it with broken-link."

/-- The `IOError` message for a checksum mismatch (lines 175–179); it embeds
both the actual and the expected digest. -/
def checksumMsg (p actual expected : Path) : Path :=
  p ++ strL " has an MD5 checksum (" ++ actual ++
    strL ") differing from expected (" ++ expected ++
    strL "), file may be corrupted."

/-- Lines 173–180: recompute the digest of the file now at `dpath` and
compare it with the expected checksum; mismatch raises `IOError`. -/
def verifyChecksum (md5fn : DigestFn) (remote : RemoteFileMetadata)
    (dpath : Path) (st : State) : Except Err Path × State :=
  match getFile dpath st.fs with
  | none => (Except.error (Err.fileMissing dpath), st)
  | some c =>
    let checksum := md5fn c
    if remote.checksum ≠ checksum then
      (Except.error (Err.ioError (checksumMsg dpath checksum remote.checksum)), st)
    else
      (Except.ok dpath, st)

/-- Function `download_from_remote` (lines 120–180): ensure the download directory,
transfer the remote file when it is absent locally or `force_overwrite` is
set (printing the broken-link message and re-raising on transport failure),
then always verify the checksum of the file on disk. -/
def download_from_remote (net : NetFn) (md5fn : DigestFn)
    (remote : RemoteFileMetadata) (save_dir : Path) (force_overwrite : Bool)
    (st : State) : Except Err Path × State :=
  let ddir := downloadDir remote save_dir
  let st1 := ensureDir ddir st
  let dpath := pathJoin ddir remote.filename
  if !fileExists dpath st1.fs || force_overwrite then
    match net remote.url with
    | Except.ok content =>
      let st2 : State :=
        { st1 with
          fs := setFile dpath content st1.fs
          events := st1.events ++ [Event.transfer remote.url] }
      verifyChecksum md5fn remote dpath st2
    | Except.error e =>
      let st2 : State :=
        { st1 with
          events := st1.events ++
            [Event.transfer remote.url, Event.printed (downloadFailMsg remote.url)] }
      (Except.error (Err.raised e), st2)
  else
    verifyChecksum md5fn remote dpath st1

/-! ## Extractor: `unzip`, `untar` -/

/-- Python `extractall(target)`: write each entry at `os.path.join(target, entry)`. -/
def writeAll (target : Path) : List (Path × Content) → List (Path × Content) →
    List (Path × Content)
  | [], fs => fs
  | e :: rest, fs => writeAll target rest (setFile (pathJoin target e.1) e.2 fs)

/-- Function `unzip` (lines 200–212): open the archive at `zip_path`, extract every
entry into `os.path.dirname(zip_path)`, and when `cleanup` is set remove the
archive after a successful extraction. -/
def unzip (zipRead : ArchiveFn) (zip_path : Path) (cleanup : Bool)
    (st : State) : Except Err Unit × State :=
  match getFile zip_path st.fs with
  | none => (Except.error (Err.fileMissing zip_path), st)
  | some c =>
    match zipRead c with
    | none => (Except.error (Err.badArchive zip_path), st)
    | some entries =>
      let st1 : State :=
        { st with
          fs := writeAll (dirname zip_path) entries st.fs
          events := st.events ++ [Event.extracted zip_path] }
      if cleanup then
        (Except.ok (),
          { st1 with
            fs := removeFile zip_path st1.fs
            events := st1.events ++ [Event.removed zip_path] })
      else
        (Except.ok (), st1)

/-- Function `untar` (lines 228–239): same as `unzip` with the tar reader
(`tarfile.open` handles gzip transparently). -/
def untar (tarRead : ArchiveFn) (tar_path : Path) (cleanup : Bool)
    (st : State) : Except Err Unit × State :=
  match getFile tar_path st.fs with
  | none => (Except.error (Err.fileMissing tar_path), st)
  | some c =>
    match tarRead c with
    | none => (Except.error (Err.badArchive tar_path), st)
    | some entries =>
      let st1 : State :=
        { st with
          fs := writeAll (dirname tar_path) entries st.fs
          events := st.events ++ [Event.extracted tar_path] }
      if cleanup then
        (Except.ok (),
          { st1 with
            fs := removeFile tar_path st1.fs
            events := st1.events ++ [Event.removed tar_path] })
      else
        (Except.ok (), st1)

/-- Function `download_zip_file` (lines 183–197): fetch, then unzip the fetched path. -/
def download_zip_file (net : NetFn) (md5fn : DigestFn) (zipRead : ArchiveFn)
    (zip_remote : RemoteFileMetadata) (save_dir : Path)
    (force_overwrite cleanup : Bool) (st : State) : Except Err Unit × State :=
  match download_from_remote net md5fn zip_remote save_dir force_overwrite st with
  | (Except.error e, st1) => (Except.error e, st1)
  | (Except.ok p, st1) => unzip zipRead p cleanup st1

/-- Function `download_tar_file` (lines 215–225): fetch, then untar the fetched path. -/
def download_tar_file (net : NetFn) (md5fn : DigestFn) (tarRead : ArchiveFn)
    (tar_remote : RemoteFileMetadata) (save_dir : Path)
    (force_overwrite cleanup : Bool) (st : State) : Except Err Unit × State :=
  match download_from_remote net md5fn tar_remote save_dir force_overwrite st with
  | (Except.error e, st1) => (Except.error e, st1)
  | (Except.ok p, st1) => untar tarRead p cleanup st1

/-! ## Orchestrator: `downloader` -/

/-- The `download` dict: logical key ↦ asset, in insertion order. -/
abbrev Manifest := List (Path × RemoteFileMetadata)

/-- The `partial_download` argument: `None`, a list of keys, or a value of
some other Python type. -/
inductive PDArg
  | nonePD
  | listPD (ks : List Path)
  | otherPD
deriving DecidableEq, Repr

def manifestKeys (d : Manifest) : List Path := d.map Prod.fst

/-- The first selected key absent from the manifest, if any (the loop at
lines 64–69 raises `KeyError` at the first such key). -/
def firstMissingKey (d : Manifest) : List Path → Option Path
  | [] => none
  | k :: rest =>
    if k ∈ manifestKeys d then firstMissingKey d rest else some k

/-- Lines 57–72: `TypeError` when `partial_download` is neither `None` nor a
list; `KeyError` at the first selected key missing from the manifest;
otherwise the working key set (`objs_to_download`). -/
def validateSelection (d : Manifest) : PDArg → Except Err (List Path)
  | PDArg.nonePD => Except.ok (manifestKeys d)
  | PDArg.otherPD => Except.error Err.typeError
  | PDArg.listPD ks =>
    match firstMissingKey d ks with
    | some k => Except.error (Err.keyError k)
    | none => Except.ok ks

/-- Line 77: `list(partial_download.keys())` while building the
start-of-download message.  At this point `partial_download` is either
`None` or a `list`; neither has a `keys` attribute, so the attribute access
raises `AttributeError` in both cases. -/
def startMessageKeys (_pd : PDArg) : Except Err (List Path) :=
  Except.error Err.attributeError

/-- The start-of-download message of lines 74–78 (never actually built,
since line 77 raises first). -/
def startMsg (_ks : List Path) (save_dir : Path) : Path :=
  strL "Starting to download the list of files to folder " ++ save_dir

/-- Python `download[k]`: dict subscription, `KeyError` when absent. -/
def dictGet (d : Manifest) (k : Path) : Except Err RemoteFileMetadata :=
  match lookupKey k d with
  | none => Except.error (Err.keyError k)
  | some r => Except.ok r

/-- Lines 81–93: walk `objs_to_download` in order and partition the assets
into `zip_downloads`, `tar_downloads`, `file_downloads` by the archive kind
of the URL of each asset. -/
def partitionDownloads (d : Manifest) :
    List Path → Except Err (List RemoteFileMetadata × List RemoteFileMetadata × List RemoteFileMetadata)
  | [] => Except.ok ([], [], [])
  | k :: rest =>
    match dictGet d k with
    | Except.error e => Except.error e
    | Except.ok r =>
      match partitionDownloads d rest with
      | Except.error e => Except.error e
      | Except.ok (zs, ts, ps) =>
        match classify r.url with
        | ArchiveKind.zip => Except.ok (r :: zs, ts, ps)
        | ArchiveKind.tar => Except.ok (zs, r :: ts, ps)
        | ArchiveKind.plain => Except.ok (zs, ts, r :: ps)

/-- Run one per-asset step over a group in order, aborting at the first
exception (a raised exception propagates out of the `for` loop). -/
def processList (step : RemoteFileMetadata → State → Except Err Unit × State) :
    List RemoteFileMetadata → State → Except Err Unit × State
  | [], st => (Except.ok (), st)
  | r :: rest, st =>
    match step r st with
    | (Except.error e, st1) => (Except.error e, st1)
    | (Except.ok _, st1) => processList step rest st1

/-- Lines 81–105: partition the working set by archive kind, then process
the zip group, the tar group and the plain group in that order — zip and
tar assets are fetched and immediately extracted with the `cleanup` flag
passed through; plain assets are only fetched. -/
def processDownloads (net : NetFn) (md5fn : DigestFn)
    (zipRead tarRead : ArchiveFn) (d : Manifest) (objs : List Path)
    (save_dir : Path) (force_overwrite cleanup : Bool) (st : State) :
    Except Err Unit × State :=
  match partitionDownloads d objs with
  | Except.error e => (Except.error e, st)
  | Except.ok (zips, tars, plains) =>
    match processList
        (fun r => download_zip_file net md5fn zipRead r save_dir force_overwrite cleanup)
        zips st with
    | (Except.error e, st1) => (Except.error e, st1)
    | (Except.ok _, st1) =>
      match processList
          (fun r => download_tar_file net md5fn tarRead r save_dir force_overwrite cleanup)
          tars st1 with
      | (Except.error e, st2) => (Except.error e, st2)
      | (Except.ok _, st2) =>
        processList
          (fun r st3 =>
            match download_from_remote net md5fn r save_dir force_overwrite st3 with
            | (Except.error e, st4) => (Except.error e, st4)
            | (Except.ok _, st4) => (Except.ok (), st4))
          plains st2

/-- Function `downloader` (lines 25–108): ensure `save_dir`; when `download` is not
`None`, validate the selection, build the start message (which raises
`AttributeError` at line 77), print it and process the groups; when
`download` is `None`, print `info_message` when supplied. -/
def downloader (net : NetFn) (md5fn : DigestFn) (zipRead tarRead : ArchiveFn)
    (save_dir : Path) (download : Option Manifest) (pd : PDArg)
    (info_message : Option Path) (force_overwrite cleanup : Bool)
    (st : State) : Except Err Unit × State :=
  let st0 := ensureDir save_dir st
  match download with
  | some d =>
    match validateSelection d pd with
    | Except.error e => (Except.error e, st0)
    | Except.ok objs =>
      match startMessageKeys pd with
      | Except.error e => (Except.error e, st0)
      | Except.ok ks =>
        let st1 : State :=
          { st0 with events := st0.events ++ [Event.printed (startMsg ks save_dir)] }
        processDownloads net md5fn zipRead tarRead d objs save_dir
          force_overwrite cleanup st1
  | none =>
    match info_message with
    | some m =>
      (Except.ok (), { st0 with events := st0.events ++ [Event.printed m] })
    | none => (Except.ok (), st0)

/-! ## Statement helpers and concrete fixtures -/

/-- Is an event a network transfer attempt? -/
def isTransfer : Event → Bool
  | Event.transfer _ => true
  | _ => false

/-- Number of network transfer attempts in a trace. -/
def countTransfers (evs : List Event) : Nat :=
  (evs.filter isTransfer).length

/-- Concatenation of the per-element lists, in order. -/
def concatMap {α β : Type} (f : α → List β) : List α → List β
  | [] => []
  | a :: rest => f a ++ concatMap f rest

/-- The observable trace of one successfully processed archive asset:
transfer, extraction, and — when `cleanup` is set — removal of the archive. -/
def archTrace (save_dir : Path) (cleanup : Bool) (r : RemoteFileMetadata) :
    List Event :=
  [Event.transfer r.url, Event.extracted (downloadPath r save_dir)] ++
    (if cleanup then [Event.removed (downloadPath r save_dir)] else [])

/-- The observable trace of one successfully fetched plain asset. -/
def plainTrace (r : RemoteFileMetadata) : List Event :=
  [Event.transfer r.url]

/-- A well-formed relative entry path contains no `..` segment (zip readers
sanitize such entries away; we restrict placement statements to entries
without them). -/
def noDotDot (p : Path) : Bool := !containsStr (strL "..") p

/-- Concrete fixtures used by the witnesses. -/
def initState : State := ⟨[], [], []⟩

def assetZip : RemoteFileMetadata :=
  ⟨strL "a.zip", strL "http://x/a.zip", strL "ZIP", none⟩

def assetTar : RemoteFileMetadata :=
  ⟨strL "b.tar", strL "http://x/b.tar", strL "TAR", none⟩

def assetPlain : RemoteFileMetadata :=
  ⟨strL "c.csv", strL "http://x/c.csv", strL "CSV", none⟩

/-- A network where the three fixture URLs resolve and everything else
fails. -/
def netEx : NetFn := fun u =>
  if u = strL "http://x/a.zip" then Except.ok (strL "ZIP")
  else if u = strL "http://x/b.tar" then Except.ok (strL "TAR")
  else if u = strL "http://x/c.csv" then Except.ok (strL "CSV")
  else Except.error (strL "404")

/-- A network where every URL fails with a connection error. -/
def netDown : NetFn := fun _ => Except.error (strL "ConnectionResetError")

/-- Fixture digest: the identity on contents (checksums above are the
contents themselves). -/
def md5Ex : DigestFn := fun c => c

def zipReadEx : ArchiveFn := fun c =>
  if c = strL "ZIP" then some [(strL "data/x.csv", strL "X")] else none

def tarReadEx : ArchiveFn := fun c =>
  if c = strL "TAR" then some [(strL "t/y.csv", strL "Y")] else none

/-- An archive reader that rejects every content (corrupt archive). -/
def badReadEx : ArchiveFn := fun _ => none

/-- A state whose filesystem already holds a zip archive at
`root/sub/archive.zip` containing the entry `data/x.csv`. -/
def stWithArchive : State :=
  ⟨[(strL "root/sub/archive.zip", strL "ZIP")], [strL "root/sub"], []⟩

/-- A state whose filesystem holds a corrupted cached copy of the plain
asset (content differing from its checksum). -/
def stCorrupt : State :=
  ⟨[(strL "root/c.csv", strL "WRONG")], [strL "root"], []⟩

instance instDecEqExcept {ε α : Type} [DecidableEq ε] [DecidableEq α] :
    DecidableEq (Except ε α)
  | Except.ok a, Except.ok b =>
    if h : a = b then Decidable.isTrue (h ▸ rfl)
    else Decidable.isFalse (fun hh => h (Except.ok.inj hh))
  | Except.ok _, Except.error _ => Decidable.isFalse (fun hh => Except.noConfusion hh)
  | Except.error _, Except.ok _ => Decidable.isFalse (fun hh => Except.noConfusion hh)
  | Except.error a, Except.error b =>
    if h : a = b then Decidable.isTrue (h ▸ rfl)
    else Decidable.isFalse (fun hh => h (Except.error.inj hh))

/-- The assets the working key set selects, in key order. -/
def selectedAssets (d : Manifest) (objs : List Path) : List RemoteFileMetadata :=
  objs.filterMap fun k => lookupKey k d

/-- The sublist of assets whose URL classifies as the given kind,
preserving order. -/
def assetsOfKind (kind : ArchiveKind) (rs : List RemoteFileMetadata) :
    List RemoteFileMetadata :=
  rs.filter fun r => decide (classify r.url = kind)

/-- Fixture content function: the content served at the URL of each fixture asset. -/
def cfnEx : RemoteFileMetadata → Content := fun r =>
  if r = assetZip then strL "ZIP"
  else if r = assetTar then strL "TAR"
  else strL "CSV"

/-- Fixture manifest holding a plain, a zip and a tar asset — in an
insertion order different from the processing order. -/
def d10 : Manifest :=
  [(strL "p", assetPlain), (strL "z", assetZip), (strL "t", assetTar)]

def objs10 : List Path := [strL "p", strL "z", strL "t"]

/-! ## Lemmas about the string machinery -/

theorem startsWith_append_self (n y : Path) : startsWith n (n ++ y) = true := by
  induction n with
  | nil => rfl
  | cons a as ih => simp [startsWith, ih]

theorem containsStr_append_self (n r : Path) : containsStr n (n ++ r) = true := by
  cases n with
  | nil =>
    cases r with
    | nil => rfl
    | cons b bs => simp [containsStr, startsWith]
  | cons a as =>
    show (startsWith (a :: as) (a :: (as ++ r)) || containsStr (a :: as) (as ++ r)) = true
    rw [← List.cons_append, startsWith_append_self, Bool.true_or]

theorem containsStr_mid (n l r : Path) : containsStr n (l ++ n ++ r) = true := by
  induction l with
  | nil => simpa using containsStr_append_self n r
  | cons b bs ih =>
    show (startsWith n (b :: (bs ++ n ++ r)) || containsStr n (bs ++ n ++ r)) = true
    rw [ih, Bool.or_true]

theorem rfind_bounds (c : Char) (p : Path) :
    -1 ≤ rfind c p ∧ rfind c p < (p.length : Int) := by
  induction p with
  | nil => constructor <;> simp [rfind]
  | cons a rest ih =>
    rw [rfind]
    simp only [List.length_cons]
    split
    · omega
    · split <;> omega

theorem rfind_append (c : Char) (xs ys : Path) :
    rfind c (xs ++ ys) =
      if 0 ≤ rfind c ys then rfind c ys + (xs.length : Int) else rfind c xs := by
  induction xs with
  | nil =>
    have h := rfind_bounds c ys
    simp only [List.nil_append, List.length_nil, Int.ofNat_zero]
    split
    · omega
    · simp [rfind]; omega
  | cons a xs ih =>
    rw [List.cons_append, rfind, ih, rfind]
    by_cases h : 0 ≤ rfind c ys
    · have h2 : (0 : Int) ≤ rfind c ys + (xs.length : Int) := by omega
      rw [if_pos h, if_pos h, if_pos h2]
      simp only [List.length_cons]
      push_cast
      ring
    · rw [if_neg h, if_neg h]

theorem getD_append_len (xs ys : Path) (k : Nat) (d : Char) :
    (xs ++ ys).getD (xs.length + k) d = ys.getD k d := by
  induction xs with
  | nil => simp
  | cons a xs ih =>
    have hidx : (a :: xs).length + k = (xs.length + k) + 1 := by
      simp [List.length_cons]; omega
    rw [hidx, List.cons_append, List.getD_cons_succ, ih]

theorem drop_append_len (xs ys : Path) (k : Nat) :
    (xs ++ ys).drop (xs.length + k) = ys.drop k := by
  induction xs with
  | nil => simp
  | cons a xs ih =>
    have hidx : (a :: xs).length + k = (xs.length + k) + 1 := by
      simp [List.length_cons]; omega
    rw [hidx, List.cons_append, List.drop_succ_cons, ih]

/-- `splitext` of `stem ++ ys` when the suffix `ys` contains the last dot
(at index `k`), contains no separator, and has a non-dot character before
its last dot: the extension is `ys.drop k`, whatever the stem is. -/
theorem splitextExt_append (stem ys : Path) (k m : Nat)
    (hdot : rfind '.' ys = (k : Int))
    (hsep : rfind '/' ys = -1)
    (hmk : m < k) (hm : ys.getD m '.' ≠ '.') :
    splitextExt (stem ++ ys) = ys.drop k := by
  have hb := rfind_bounds '/' stem
  have hdotA : rfind '.' (stem ++ ys) = (k : Int) + (stem.length : Int) := by
    rw [rfind_append, hdot]
    rw [if_pos (by omega)]
  have hsepA : rfind '/' (stem ++ ys) = rfind '/' stem := by
    rw [rfind_append, hsep]
    rw [if_neg (by omega)]
  have hby := rfind_bounds '.' ys
  rw [hdot] at hby
  rw [splitextExt, hdotA, hsepA]
  rw [if_pos (by omega)]
  have hnd : hasNonDot (stem ++ ys) (rfind '/' stem) ((k : Int) + (stem.length : Int)) = true := by
    rw [hasNonDot, List.any_eq_true]
    refine ⟨stem.length + m, ?_, ?_⟩
    · rw [List.mem_range, List.length_append]
      omega
    · simp only [Bool.and_eq_true, decide_eq_true_eq]
      refine ⟨⟨by push_cast; omega, by push_cast; omega⟩, ?_⟩
      rw [getD_append_len]
      exact hm
  rw [if_pos hnd]
  have htn : ((k : Int) + (stem.length : Int)).toNat = stem.length + k := by omega
  rw [htn, drop_append_len]

/-! ## Lemmas about the filesystem model -/

theorem ensureDir_fs (p : Path) (st : State) : (ensureDir p st).fs = st.fs := by
  rw [ensureDir]; split <;> rfl

theorem ensureDir_events (p : Path) (st : State) :
    (ensureDir p st).events = st.events := by
  rw [ensureDir]; split <;> rfl

theorem lookupKey_cons {α : Type} (k : Path) (kv : Path × α) (rest : List (Path × α)) :
    lookupKey k (kv :: rest) = if kv.1 = k then some kv.2 else lookupKey k rest :=
  rfl

theorem ensureDir_eta (p : Path) (st : State) :
    ensureDir p st = { st with dirs := (ensureDir p st).dirs } := by
  by_cases h : dirExists p st.dirs = true <;> simp [ensureDir, h]

theorem getFile_filter_ne (q p : Path) (fs : List (Path × Content)) (h : q ≠ p) :
    getFile q (fs.filter fun kv => decide (kv.1 ≠ p)) = getFile q fs := by
  induction fs with
  | nil => rfl
  | cons kv rest ih =>
    simp only [getFile] at ih ⊢
    rw [List.filter_cons]
    by_cases hkv : kv.1 = p
    · rw [if_neg (by simp [hkv]), lookupKey_cons,
        if_neg (by rw [hkv]; exact fun hh => h hh.symm)]
      exact ih
    · rw [if_pos (by simp [hkv]), lookupKey_cons, lookupKey_cons]
      by_cases hq : kv.1 = q
      · rw [if_pos hq, if_pos hq]
      · rw [if_neg hq, if_neg hq]
        exact ih

theorem getFile_setFile (q p : Path) (c : Content) (fs : List (Path × Content)) :
    getFile q (setFile p c fs) = if p = q then some c else getFile q fs := by
  rw [setFile]
  show getFile q ((p, c) :: _) = _
  rw [getFile, lookupKey_cons]
  by_cases h : p = q
  · rw [if_pos h, if_pos h]
  · rw [if_neg h, if_neg h]
    exact getFile_filter_ne q p fs (fun hh => h hh.symm)

theorem getFile_setFile_self (p : Path) (c : Content) (fs : List (Path × Content)) :
    getFile p (setFile p c fs) = some c := by
  rw [getFile_setFile, if_pos rfl]

theorem getFile_removeFile (q p : Path) (fs : List (Path × Content)) :
    getFile q (removeFile p fs) = if q = p then none else getFile q fs := by
  rw [removeFile]
  by_cases h : q = p
  · rw [if_pos h]
    subst h
    induction fs with
    | nil => rfl
    | cons kv rest ih =>
      rw [List.filter_cons]
      by_cases hkv : kv.1 = q
      · rw [if_neg (by simp [hkv])]
        exact ih
      · rw [if_pos (by simp [hkv])]
        rw [getFile, lookupKey_cons, if_neg hkv]
        exact ih
  · rw [if_neg h]
    exact getFile_filter_ne q p fs h

theorem fileExists_setFile_iff (q p : Path) (c : Content) (fs : List (Path × Content)) :
    fileExists q (setFile p c fs) = true ↔ p = q ∨ fileExists q fs = true := by
  rw [fileExists, getFile_setFile]
  by_cases h : p = q
  · simp [h]
  · simp [h, fileExists]

/-- Files present after `extractall`: exactly the old files and the entries
written at `pathJoin target ·`. -/
theorem fileExists_writeAll (target q : Path) (entries : List (Path × Content))
    (fs : List (Path × Content)) :
    fileExists q (writeAll target entries fs) = true ↔
      (∃ e ∈ entries, q = pathJoin target e.1) ∨ fileExists q fs = true := by
  induction entries generalizing fs with
  | nil => simp [writeAll]
  | cons e rest ih =>
    rw [writeAll, ih]
    constructor
    · rintro (⟨e2, he2, hq⟩ | hq)
      · exact Or.inl ⟨e2, List.mem_cons_of_mem e he2, hq⟩
      · rcases (fileExists_setFile_iff q (pathJoin target e.1) e.2 fs).mp hq with h | h
        · exact Or.inl ⟨e, List.mem_cons_self e rest, h.symm⟩
        · exact Or.inr h
    · rintro (⟨e2, he2, hq⟩ | hq)
      · rcases List.mem_cons.mp he2 with h | h
        · subst h
          exact Or.inr ((fileExists_setFile_iff _ _ _ _).mpr (Or.inl hq.symm))
        · exact Or.inl ⟨e2, h, hq⟩
      · exact Or.inr ((fileExists_setFile_iff _ _ _ _).mpr (Or.inr hq))

theorem rfind_cons_of_found (c a : Char) (l : Path) (k : Int)
    (h : rfind c l = k) (hk : 0 ≤ k) : rfind c (a :: l) = k + 1 := by
  rw [rfind, h, if_pos hk]

theorem rfind_cons_of_absent (c a : Char) (l : Path)
    (h : rfind c l = -1) (ha : a ≠ c) : rfind c (a :: l) = -1 := by
  rw [rfind, h, if_neg (by omega), if_neg ha]

/-! ## Claim C1: archive-kind classification -/

/-- C1 (counterexample): the claim says a URL ending in `.tar.gz`
classifies as `tar`; on the code, `os.path.splitext` yields only the final
extension `.gz`, which contains neither `.tar.gz` nor `.tar`, so the URL
`http://x/a.tar.gz` classifies as `plain`, not `tar`. -/
theorem claim1_counterexample :
    classify (strL "http://x/a.tar.gz") = ArchiveKind.plain ∧
      ArchiveKind.plain ≠ ArchiveKind.tar := by
  constructor
  · decide
  · decide

/-- C1 (amended): classification applies the stated containment rule to the
final extension of the URL as computed by `os.path.splitext`.  Consequently, for
every stem, a URL ending in `.zip` or `.tar` (with a non-dot, non-slash
character right before that suffix) classifies as `zip` resp. `tar`, while
a URL ending in `.tar.gz` classifies as `plain` — its final extension is
`.gz`. -/
theorem claim1_classification (stem : Path) (c1 c2 : Char)
    (h1d : c1 ≠ '.') (h1s : c1 ≠ '/') (h2d : c2 ≠ '.') (h2s : c2 ≠ '/') :
    classify (stem ++ strL ".tar.gz") = ArchiveKind.plain ∧
      classify (stem ++ c1 :: strL ".tar") = ArchiveKind.tar ∧
      classify (stem ++ c2 :: strL ".zip") = ArchiveKind.zip := by
  refine ⟨?_, ?_, ?_⟩
  · have hext := splitextExt_append stem (strL ".tar.gz") 4 1
      (by decide) (by decide) (by decide) (by decide)
    simp only [classify, hext]
    decide
  · have hdot : rfind '.' (c1 :: strL ".tar") = ((1 : Nat) : Int) := by
      have h0 := rfind_cons_of_found '.' c1 (strL ".tar") 0 (by decide) (by decide)
      simpa using h0
    have hsep : rfind '/' (c1 :: strL ".tar") = -1 :=
      rfind_cons_of_absent '/' c1 (strL ".tar") (by decide) h1s
    have hm : (c1 :: strL ".tar").getD 0 '.' ≠ '.' := by
      simpa using h1d
    have hext := splitextExt_append stem (c1 :: strL ".tar") 1 0 hdot hsep
      (by decide) hm
    have hdrop : (c1 :: strL ".tar").drop 1 = strL ".tar" := rfl
    rw [hdrop] at hext
    simp only [classify, hext]
    decide
  · have hdot : rfind '.' (c2 :: strL ".zip") = ((1 : Nat) : Int) := by
      have h0 := rfind_cons_of_found '.' c2 (strL ".zip") 0 (by decide) (by decide)
      simpa using h0
    have hsep : rfind '/' (c2 :: strL ".zip") = -1 :=
      rfind_cons_of_absent '/' c2 (strL ".zip") (by decide) h2s
    have hm : (c2 :: strL ".zip").getD 0 '.' ≠ '.' := by
      simpa using h2d
    have hext := splitextExt_append stem (c2 :: strL ".zip") 1 0 hdot hsep
      (by decide) hm
    have hdrop : (c2 :: strL ".zip").drop 1 = strL ".zip" := rfl
    rw [hdrop] at hext
    simp only [classify, hext]
    decide

/-- C1 (witness): the amended classification rule evaluated at concrete
URLs. -/
theorem claim1_witness :
    classify (strL "http://host/a.tar.gz") = ArchiveKind.plain ∧
      classify (strL "http://host/a.tar") = ArchiveKind.tar ∧
      classify (strL "http://host/a.zip") = ArchiveKind.zip := by
  have h := claim1_classification (strL "http://host/a") 'a' 'a'
    (by decide) (by decide) (by decide) (by decide)
  have h1 := h.1
  have h2 := (claim1_classification (strL "http://host/") 'a' 'a'
    (by decide) (by decide) (by decide) (by decide)).2
  rw [show strL "http://host/a" ++ strL ".tar.gz" = strL "http://host/a.tar.gz" from by decide] at h1
  have h21 := h2.1
  have h22 := h2.2
  rw [show strL "http://host/" ++ 'a' :: strL ".tar" = strL "http://host/a.tar" from by decide] at h21
  rw [show strL "http://host/" ++ 'a' :: strL ".zip" = strL "http://host/a.zip" from by decide] at h22
  exact ⟨h1, h21, h22⟩

/-! ## Claims C2–C4: orchestrator control flow -/

theorem firstMissingKey_eq_none (d : Manifest) (ks : List Path)
    (h : ∀ k ∈ ks, k ∈ manifestKeys d) : firstMissingKey d ks = none := by
  induction ks with
  | nil => rfl
  | cons k rest ih =>
    rw [firstMissingKey, if_pos (h k (List.mem_cons_self k rest))]
    exact ih fun k2 hk2 => h k2 (List.mem_cons_of_mem k hk2)

theorem firstMissingKey_found (d : Manifest) (ks : List Path)
    (h : ∃ k ∈ ks, k ∉ manifestKeys d) :
    ∃ k0, firstMissingKey d ks = some k0 ∧ k0 ∉ manifestKeys d := by
  induction ks with
  | nil => obtain ⟨k, hk, _⟩ := h; exact absurd hk (List.not_mem_nil k)
  | cons k rest ih =>
    by_cases hmem : k ∈ manifestKeys d
    · obtain ⟨k2, hk2, hnm⟩ := h
      rcases List.mem_cons.mp hk2 with rfl | hk2
      · exact absurd hmem hnm
      · obtain ⟨k0, hfind, hnm0⟩ := ih ⟨k2, hk2, hnm⟩
        exact ⟨k0, by rw [firstMissingKey, if_pos hmem]; exact hfind, hnm0⟩
    · exact ⟨k, by rw [firstMissingKey, if_neg hmem], hmem⟩

/-- C2: whenever `download` is a dict and the selection passes validation
(`partial_download` is `None`, or a list whose keys all occur in the dict),
`downloader` raises `AttributeError` at line 77 while building the
start-of-download message, and the resulting state is exactly the input
state with `save_dir` ensured: no message is printed, no transfer and no
extraction ever happens on this path. -/
theorem claim2_attribute_error (net : NetFn) (md5fn : DigestFn)
    (zipRead tarRead : ArchiveFn) (save_dir : Path) (d : Manifest) (pd : PDArg)
    (info : Option Path) (force cleanup : Bool) (st : State)
    (hpd : pd = PDArg.nonePD ∨
      ∃ ks, pd = PDArg.listPD ks ∧ ∀ k ∈ ks, k ∈ manifestKeys d) :
    downloader net md5fn zipRead tarRead save_dir (some d) pd info force cleanup st =
      (Except.error Err.attributeError, ensureDir save_dir st) ∧
    (downloader net md5fn zipRead tarRead save_dir (some d) pd info force cleanup st).2.events
      = st.events := by
  have hmain : downloader net md5fn zipRead tarRead save_dir (some d) pd info force cleanup st =
      (Except.error Err.attributeError, ensureDir save_dir st) := by
    rcases hpd with rfl | ⟨ks, rfl, hall⟩
    · rfl
    · have hnone : firstMissingKey d ks = none := firstMissingKey_eq_none d ks hall
      simp only [downloader, validateSelection, hnone, startMessageKeys]
  refine ⟨hmain, ?_⟩
  rw [hmain]
  exact ensureDir_events save_dir st

/-- C2 (witness): concrete manifest with a valid selection list. -/
theorem claim2_witness :
    downloader netEx md5Ex zipReadEx tarReadEx (strL "root")
        (some [(strL "audio", assetZip)]) (PDArg.listPD [strL "audio"])
        none false false initState =
      (Except.error Err.attributeError, ensureDir (strL "root") initState) :=
  (claim2_attribute_error netEx md5Ex zipReadEx tarReadEx (strL "root")
    [(strL "audio", assetZip)] (PDArg.listPD [strL "audio"]) none false false
    initState (Or.inr ⟨[strL "audio"], rfl, by decide⟩)).1

/-- C3 (counterexample): with the empty manifest `{}` and
`info_message = "hello"`, the claim says the message is surfaced and the
call returns cleanly; on the code, `download = {}` is not `None`, so the
download branch is taken and the call raises `AttributeError` without ever
printing "hello". -/
theorem claim3_counterexample :
    (downloader netEx md5Ex zipReadEx tarReadEx (strL "root") (some [])
        PDArg.nonePD (some (strL "hello")) false false initState).1 =
      Except.error Err.attributeError ∧
    Event.printed (strL "hello") ∉
      (downloader netEx md5Ex zipReadEx tarReadEx (strL "root") (some [])
        PDArg.nonePD (some (strL "hello")) false false initState).2.events := by
  constructor
  · rfl
  · decide

/-- C3 (amended): only for `manifest = None` does the informational path
run: the message is surfaced, the call returns successfully, and the state
is unchanged except for ensuring `save_dir` and the printed message.  For
`manifest = {}` (empty dict) the download branch is taken instead: the
info message is not surfaced and the call raises `AttributeError` — though
still with no network activity and no filesystem writes beyond ensuring
`save_dir`. -/
theorem claim3_info_message (net : NetFn) (md5fn : DigestFn)
    (zipRead tarRead : ArchiveFn) (save_dir m : Path) (force cleanup : Bool)
    (st : State) :
    downloader net md5fn zipRead tarRead save_dir none PDArg.nonePD (some m)
        force cleanup st =
      (Except.ok (),
        { ensureDir save_dir st with
          events := (ensureDir save_dir st).events ++ [Event.printed m] }) ∧
    (downloader net md5fn zipRead tarRead save_dir (some []) PDArg.nonePD
        (some m) force cleanup st).1 = Except.error Err.attributeError ∧
    (downloader net md5fn zipRead tarRead save_dir (some []) PDArg.nonePD
        (some m) force cleanup st).2 = ensureDir save_dir st := by
  exact ⟨rfl, rfl, rfl⟩

/-- C4: for every manifest and every selection list containing a key not in
the manifest, `downloader` raises `KeyError` (the `UnknownKey` failure) at
the first such key, and the resulting state is exactly the input state with
`save_dir` ensured — no network call, no partial work on any asset. -/
theorem claim4_unknown_key (net : NetFn) (md5fn : DigestFn)
    (zipRead tarRead : ArchiveFn) (save_dir : Path) (d : Manifest)
    (ks : List Path) (info : Option Path) (force cleanup : Bool) (st : State)
    (k : Path) (hk : k ∈ ks) (hmiss : k ∉ manifestKeys d) :
    ∃ k0, k0 ∉ manifestKeys d ∧
      downloader net md5fn zipRead tarRead save_dir (some d) (PDArg.listPD ks)
          info force cleanup st =
        (Except.error (Err.keyError k0), ensureDir save_dir st) := by
  obtain ⟨k0, hfind, hnm⟩ := firstMissingKey_found d ks ⟨k, hk, hmiss⟩
  refine ⟨k0, hnm, ?_⟩
  simp only [downloader, validateSelection, hfind]

/-- C4 (witness): the selection `["nope"]` against a one-key manifest. -/
theorem claim4_witness :
    ∃ k0, k0 ∉ manifestKeys [(strL "audio", assetZip)] ∧
      downloader netEx md5Ex zipReadEx tarReadEx (strL "root")
          (some [(strL "audio", assetZip)]) (PDArg.listPD [strL "nope"])
          none false false initState =
        (Except.error (Err.keyError k0), ensureDir (strL "root") initState) :=
  claim4_unknown_key netEx md5Ex zipReadEx tarReadEx (strL "root")
    [(strL "audio", assetZip)] [strL "nope"] none false false initState
    (strL "nope") (by decide) (by decide)

/-! ## Claims C5, C6, C9: the fetcher -/

theorem verifyChecksum_state (md5fn : DigestFn) (remote : RemoteFileMetadata)
    (dpath : Path) (st : State) : (verifyChecksum md5fn remote dpath st).2 = st := by
  rw [verifyChecksum]
  cases getFile dpath st.fs with
  | none => rfl
  | some c =>
    dsimp only
    split <;> rfl

theorem verifyChecksum_ok (md5fn : DigestFn) (remote : RemoteFileMetadata)
    (dpath : Path) (st : State) (p : Path) (st2 : State)
    (h : verifyChecksum md5fn remote dpath st = (Except.ok p, st2)) :
    p = dpath ∧ st2 = st ∧
      ∃ c, getFile dpath st.fs = some c ∧ remote.checksum = md5fn c := by
  rw [verifyChecksum] at h
  cases hg : getFile dpath st.fs with
  | none =>
    rw [hg] at h
    injection h with h1 h2
    exact Except.noConfusion h1
  | some c =>
    rw [hg] at h
    dsimp only at h
    split at h
    · injection h with h1 h2
      exact Except.noConfusion h1
    · rename_i hne
      injection h with h1 h2
      injection h1 with h3
      exact ⟨h3.symm, h2.symm, c, rfl, not_ne_iff.mp hne⟩

/-- Event trace of one `download_from_remote` call: nothing when the
transfer is skipped; the transfer attempt when it succeeds; the transfer
attempt plus the printed failure message when the transport fails. -/
theorem download_from_remote_events (net : NetFn) (md5fn : DigestFn)
    (remote : RemoteFileMetadata) (save_dir : Path) (force : Bool) (st : State) :
    (download_from_remote net md5fn remote save_dir force st).2.events =
      st.events ++
        (if !fileExists (downloadPath remote save_dir) st.fs || force then
          match net remote.url with
          | Except.ok _ => [Event.transfer remote.url]
          | Except.error _ =>
            [Event.transfer remote.url, Event.printed (downloadFailMsg remote.url)]
        else []) := by
  simp only [download_from_remote, downloadPath, ensureDir_fs]
  split
  · cases net remote.url with
    | ok c =>
      dsimp only
      rw [verifyChecksum_state]
      dsimp only
      rw [ensureDir_events]
    | error e =>
      dsimp only
      rw [ensureDir_events]
  · rw [verifyChecksum_state, ensureDir_events, List.append_nil]

theorem countTransfers_append (x y : List Event) :
    countTransfers (x ++ y) = countTransfers x + countTransfers y := by
  rw [countTransfers, countTransfers, countTransfers, List.filter_append,
    List.length_append]

/-- A successful fetch returns the on-disk path of the asset, and the file is
present there afterwards. -/
theorem download_from_remote_ok_file (net : NetFn) (md5fn : DigestFn)
    (remote : RemoteFileMetadata) (save_dir : Path) (force : Bool) (st : State)
    (p : Path) (st2 : State)
    (h : download_from_remote net md5fn remote save_dir force st = (Except.ok p, st2)) :
    p = downloadPath remote save_dir ∧
      fileExists (downloadPath remote save_dir) st2.fs = true := by
  have hd : downloadPath remote save_dir =
      pathJoin (downloadDir remote save_dir) remote.filename := rfl
  simp only [download_from_remote] at h
  split at h
  · cases hn : net remote.url with
    | ok c =>
      rw [hn] at h
      dsimp only at h
      obtain ⟨h1, h2, c2, hg, _⟩ := verifyChecksum_ok _ _ _ _ _ _ h
      refine ⟨by rw [hd]; exact h1, ?_⟩
      rw [hd, h2, fileExists, hg]
      rfl
    | error e =>
      rw [hn] at h
      injection h with h1 h2
      exact Except.noConfusion h1
  · obtain ⟨h1, h2, c2, hg, _⟩ := verifyChecksum_ok _ _ _ _ _ _ h
    refine ⟨by rw [hd]; exact h1, ?_⟩
    rw [hd, h2, fileExists, hg]
    rfl

/-- C5: `download_from_remote` performs a network transfer iff the local
path is absent or `force_overwrite` is set; consequently a second call with
`force_overwrite = false` after a successful first call performs no network
transfer at all, while `force_overwrite = true` transfers even when the
file already exists. -/
theorem claim5_fetch_idempotent (net : NetFn) (md5fn : DigestFn)
    (remote : RemoteFileMetadata) (save_dir : Path) (force : Bool) (st : State) :
    (countTransfers (download_from_remote net md5fn remote save_dir force st).2.events
        > countTransfers st.events ↔
      (fileExists (downloadPath remote save_dir) st.fs = false ∨ force = true)) ∧
    (∀ p st2,
      download_from_remote net md5fn remote save_dir false st = (Except.ok p, st2) →
      countTransfers
          (download_from_remote net md5fn remote save_dir false st2).2.events =
        countTransfers st2.events) := by
  constructor
  · rw [download_from_remote_events, countTransfers_append]
    constructor
    · intro hgt
      by_cases hf : fileExists (downloadPath remote save_dir) st.fs = false
      · exact Or.inl hf
      · by_cases hforce : force = true
        · exact Or.inr hforce
        · exfalso
          have h1 : fileExists (downloadPath remote save_dir) st.fs = true := by
            revert hf
            cases fileExists (downloadPath remote save_dir) st.fs <;> simp
          have h2 : force = false := by
            revert hforce
            cases force <;> simp
          rw [h1, h2] at hgt
          simp [countTransfers] at hgt
    · intro hor
      have hcond : (!fileExists (downloadPath remote save_dir) st.fs || force) = true := by
        rcases hor with h | h <;> simp [h]
      rw [if_pos hcond]
      cases net remote.url with
      | ok c => simp [countTransfers, isTransfer]
      | error e => simp [countTransfers, isTransfer]
  · intro p st2 h
    obtain ⟨_, hex⟩ := download_from_remote_ok_file net md5fn remote save_dir false st p st2 h
    rw [download_from_remote_events, countTransfers_append]
    rw [if_neg (by simp [hex])]
    simp [countTransfers]

/-- C5 (witness): concrete second fetch after a successful first fetch adds
no transfer. -/
theorem claim5_witness :
    (countTransfers (download_from_remote netEx md5Ex assetPlain (strL "root")
          false initState).2.events > countTransfers initState.events) ∧
    countTransfers (download_from_remote netEx md5Ex assetPlain (strL "root")
          false (download_from_remote netEx md5Ex assetPlain (strL "root")
            false initState).2).2.events =
      countTransfers (download_from_remote netEx md5Ex assetPlain (strL "root")
          false initState).2.events := by
  have h := claim5_fetch_idempotent netEx md5Ex assetPlain (strL "root") false initState
  refine ⟨h.1.mpr (Or.inl (by decide)), ?_⟩
  exact h.2 (downloadPath assetPlain (strL "root"))
    (download_from_remote netEx md5Ex assetPlain (strL "root") false initState).2
    (by rfl)

theorem containsStr_checksumMsg_actual (pth a e : Path) :
    containsStr a (checksumMsg pth a e) = true := by
  have h := containsStr_mid a (pth ++ strL " has an MD5 checksum (")
    (strL ") differing from expected (" ++ e ++ strL "), file may be corrupted.")
  simpa only [checksumMsg, List.append_assoc] using h

theorem containsStr_checksumMsg_expected (pth a e : Path) :
    containsStr e (checksumMsg pth a e) = true := by
  have h := containsStr_mid e
    (pth ++ strL " has an MD5 checksum (" ++ a ++ strL ") differing from expected (")
    (strL "), file may be corrupted.")
  simpa only [checksumMsg, List.append_assoc] using h

theorem verifyChecksum_spec (md5fn : DigestFn) (remote : RemoteFileMetadata)
    (dpath : Path) (st : State) (c : Content) (hg : getFile dpath st.fs = some c) :
    verifyChecksum md5fn remote dpath st =
      (if remote.checksum ≠ md5fn c then
        Except.error (Err.ioError (checksumMsg dpath (md5fn c) remote.checksum))
      else Except.ok dpath, st) := by
  rw [verifyChecksum, hg]
  dsimp only
  by_cases hne : remote.checksum ≠ md5fn c
  · rw [if_pos hne, if_pos hne]
  · rw [if_neg hne, if_neg hne]

/-- Outcome of the checksum verification step, given the file content on
disk: success exactly when the digest matches, and on mismatch an `IOError`
whose message contains both digests. -/
theorem verify_result_spec (md5fn : DigestFn) (remote : RemoteFileMetadata)
    (dpath : Path) (st : State) (c : Content)
    (hg : getFile dpath st.fs = some c) :
    getFile dpath (verifyChecksum md5fn remote dpath st).2.fs = some c ∧
    ((verifyChecksum md5fn remote dpath st).1 = Except.ok dpath ↔
      remote.checksum = md5fn c) ∧
    (remote.checksum ≠ md5fn c →
      ∃ msg, (verifyChecksum md5fn remote dpath st).1 =
          Except.error (Err.ioError msg) ∧
        containsStr (md5fn c) msg = true ∧
        containsStr remote.checksum msg = true) := by
  rw [verifyChecksum_spec md5fn remote dpath st c hg]
  dsimp only
  refine ⟨hg, ?_, ?_⟩
  · by_cases hne : remote.checksum ≠ md5fn c
    · rw [if_pos hne]
      constructor
      · intro hh
        exact Except.noConfusion hh
      · intro hh
        exact absurd hh hne
    · rw [if_neg hne]
      simp [not_ne_iff.mp hne]
  · intro hne
    rw [if_pos hne]
    exact ⟨checksumMsg dpath (md5fn c) remote.checksum, rfl,
      containsStr_checksumMsg_actual dpath (md5fn c) remote.checksum,
      containsStr_checksumMsg_expected dpath (md5fn c) remote.checksum⟩

/-- `download_from_remote` rewritten with the download path and the input
state components exposed. -/
theorem download_from_remote_eq (net : NetFn) (md5fn : DigestFn)
    (remote : RemoteFileMetadata) (save_dir : Path) (force : Bool) (st : State) :
    download_from_remote net md5fn remote save_dir force st =
      if !fileExists (downloadPath remote save_dir) st.fs || force then
        match net remote.url with
        | Except.ok content =>
          verifyChecksum md5fn remote (downloadPath remote save_dir)
            { st with
              fs := setFile (downloadPath remote save_dir) content st.fs
              dirs := (ensureDir (downloadDir remote save_dir) st).dirs
              events := st.events ++ [Event.transfer remote.url] }
        | Except.error e =>
          (Except.error (Err.raised e),
            { st with
              dirs := (ensureDir (downloadDir remote save_dir) st).dirs
              events := st.events ++ [Event.transfer remote.url,
                Event.printed (downloadFailMsg remote.url)] })
      else
        verifyChecksum md5fn remote (downloadPath remote save_dir)
          { st with dirs := (ensureDir (downloadDir remote save_dir) st).dirs } := by
  simp only [download_from_remote, downloadPath, ensureDir_fs, ensureDir_events]
  rw [← ensureDir_eta]

/-- C6: after `download_from_remote` runs with a transport that succeeds
whenever a transfer is attempted, the file is on disk at the asset path
with some content `c`; the call succeeds iff the asset checksum equals
the recomputed digest of `c`; and on mismatch it fails with an `IOError`
whose message contains both the actual and the expected digest — also when
the transfer step was skipped because the file already existed. -/
theorem claim6_integrity (net : NetFn) (md5fn : DigestFn)
    (remote : RemoteFileMetadata) (save_dir : Path) (force : Bool) (st : State)
    (hnet : (!fileExists (downloadPath remote save_dir) st.fs || force) = true →
      ∃ c, net remote.url = Except.ok c) :
    ∃ c, getFile (downloadPath remote save_dir)
        (download_from_remote net md5fn remote save_dir force st).2.fs = some c ∧
      ((download_from_remote net md5fn remote save_dir force st).1 =
          Except.ok (downloadPath remote save_dir) ↔
        remote.checksum = md5fn c) ∧
      (remote.checksum ≠ md5fn c →
        ∃ msg, (download_from_remote net md5fn remote save_dir force st).1 =
            Except.error (Err.ioError msg) ∧
          containsStr (md5fn c) msg = true ∧
          containsStr remote.checksum msg = true) := by
  rw [download_from_remote_eq]
  by_cases hb : (!fileExists (downloadPath remote save_dir) st.fs || force) = true
  · obtain ⟨c, hn⟩ := hnet hb
    rw [if_pos hb, hn]
    exact ⟨c, verify_result_spec md5fn remote (downloadPath remote save_dir) _ c
      (getFile_setFile_self (downloadPath remote save_dir) c st.fs)⟩
  · rw [if_neg hb]
    have hfe : fileExists (downloadPath remote save_dir) st.fs = true := by
      revert hb
      cases fileExists (downloadPath remote save_dir) st.fs <;> cases force <;> simp
    obtain ⟨c, hg⟩ := Option.isSome_iff_exists.mp hfe
    exact ⟨c, verify_result_spec md5fn remote (downloadPath remote save_dir) _ c hg⟩

/-- C6 (witness): a pre-existing corrupted cached file with
`force_overwrite = false` — the transfer step is skipped, yet the digest is
recomputed and the mismatch rejected. -/
theorem claim6_witness :
    ∃ c, getFile (downloadPath assetPlain (strL "root"))
        (download_from_remote netEx md5Ex assetPlain (strL "root") false stCorrupt).2.fs
          = some c ∧
      ((download_from_remote netEx md5Ex assetPlain (strL "root") false stCorrupt).1 =
          Except.ok (downloadPath assetPlain (strL "root")) ↔
        assetPlain.checksum = md5Ex c) ∧
      (assetPlain.checksum ≠ md5Ex c →
        ∃ msg, (download_from_remote netEx md5Ex assetPlain (strL "root") false stCorrupt).1 =
            Except.error (Err.ioError msg) ∧
          containsStr (md5Ex c) msg = true ∧
          containsStr assetPlain.checksum msg = true) :=
  claim6_integrity netEx md5Ex assetPlain (strL "root") false stCorrupt
    (fun h => absurd h (by decide))

/-- C9: when the transport fails, `download_from_remote` makes exactly one
transfer attempt (no retry at this layer), leaves the filesystem unchanged,
prints the failure message — which identifies the failing URL — and
re-raises the transport error to the caller. -/
theorem claim9_transport_failure (net : NetFn) (md5fn : DigestFn)
    (remote : RemoteFileMetadata) (save_dir : Path) (force : Bool) (st : State)
    (e : Path) (hnet : net remote.url = Except.error e)
    (hgo : fileExists (downloadPath remote save_dir) st.fs = false ∨ force = true) :
    download_from_remote net md5fn remote save_dir force st =
      (Except.error (Err.raised e),
        { st with
          dirs := (ensureDir (downloadDir remote save_dir) st).dirs
          events := st.events ++ [Event.transfer remote.url,
            Event.printed (downloadFailMsg remote.url)] }) ∧
    countTransfers (download_from_remote net md5fn remote save_dir force st).2.events =
      countTransfers st.events + 1 ∧
    containsStr remote.url (downloadFailMsg remote.url) = true := by
  have hb : (!fileExists (downloadPath remote save_dir) st.fs || force) = true := by
    rcases hgo with h | h <;> simp [h]
  have hmain : download_from_remote net md5fn remote save_dir force st =
      (Except.error (Err.raised e),
        { st with
          dirs := (ensureDir (downloadDir remote save_dir) st).dirs
          events := st.events ++ [Event.transfer remote.url,
            Event.printed (downloadFailMsg remote.url)] }) := by
    rw [download_from_remote_eq, if_pos hb, hnet]
  refine ⟨hmain, ?_, ?_⟩
  · rw [hmain]
    dsimp only
    rw [countTransfers_append]
    simp [countTransfers, isTransfer]
  · rw [downloadFailMsg]
    exact containsStr_mid remote.url
      (strL "mirdata failed to download the dataset from ")
      (strL "! Please try again in a few minutes. If this error persists, please raise an issue at https://github.com/mir-dataset-loaders/mirdata, and tag it with broken-link.")

/-- C9 (witness): a network where every URL fails, at a concrete asset. -/
theorem claim9_witness :
    (download_from_remote netDown md5Ex assetPlain (strL "root") false initState).1 =
      Except.error (Err.raised (strL "ConnectionResetError")) ∧
    countTransfers
        (download_from_remote netDown md5Ex assetPlain (strL "root") false initState).2.events
      = 1 := by
  have h := claim9_transport_failure netDown md5Ex assetPlain (strL "root") false
    initState (strL "ConnectionResetError") rfl (Or.inl (by decide))
  constructor
  · rw [h.1]
  · rw [h.2.1]
    rfl

/-! ## Claims C7, C8: the extractor -/

theorem untar_eq_unzip (reader : ArchiveFn) (p : Path) (cleanup : Bool)
    (st : State) : untar reader p cleanup st = unzip reader p cleanup st := rfl

theorem unzip_fail (reader : ArchiveFn) (p : Path) (cleanup : Bool) (st : State)
    (c : Content) (hc : getFile p st.fs = some c) (hr : reader c = none) :
    unzip reader p cleanup st = (Except.error (Err.badArchive p), st) := by
  rw [unzip, hc]
  dsimp only
  rw [hr]

theorem unzip_ok (reader : ArchiveFn) (p : Path) (cleanup : Bool) (st : State)
    (c : Content) (entries : List (Path × Content))
    (hc : getFile p st.fs = some c) (hr : reader c = some entries) :
    unzip reader p cleanup st =
      (Except.ok (),
        if cleanup then
          { fs := removeFile p (writeAll (dirname p) entries st.fs)
            dirs := st.dirs
            events := st.events ++ [Event.extracted p, Event.removed p] }
        else
          { fs := writeAll (dirname p) entries st.fs
            dirs := st.dirs
            events := st.events ++ [Event.extracted p] }) := by
  rw [unzip, hc]
  dsimp only
  rw [hr]
  dsimp only
  cases cleanup with
  | false => rfl
  | true =>
    simp only [List.append_assoc]
    rfl

theorem unzip_cleanup_general (reader : ArchiveFn) (p : Path) (st : State)
    (hex : fileExists p st.fs = true) :
    ((unzip reader p true st).1 = Except.ok () →
      fileExists p (unzip reader p true st).2.fs = false) ∧
    (∀ e, (unzip reader p true st).1 = Except.error e →
      fileExists p (unzip reader p true st).2.fs = true) := by
  obtain ⟨c, hc⟩ := Option.isSome_iff_exists.mp hex
  cases hr : reader c with
  | none =>
    rw [unzip_fail reader p true st c hc hr]
    constructor
    · intro hh
      exact Except.noConfusion hh
    · intro e hh
      exact hex
  | some entries =>
    rw [unzip_ok reader p true st c entries hc hr]
    constructor
    · intro _
      dsimp only
      rw [if_pos rfl]
      rw [fileExists, getFile_removeFile, if_pos rfl]
      rfl
    · intro e hh
      exact Except.noConfusion hh

/-- C7: extracting with `cleanup = true`: after a successful extraction the
archive file no longer exists; after a failed extraction the archive file
still exists — the deletion happens only after, never before, a successful
extraction.  Stated for both `unzip` and `untar`. -/
theorem claim7_cleanup (zipRead tarRead : ArchiveFn) (p : Path) (st : State)
    (hex : fileExists p st.fs = true) :
    (((unzip zipRead p true st).1 = Except.ok () →
        fileExists p (unzip zipRead p true st).2.fs = false) ∧
      (∀ e, (unzip zipRead p true st).1 = Except.error e →
        fileExists p (unzip zipRead p true st).2.fs = true)) ∧
    (((untar tarRead p true st).1 = Except.ok () →
        fileExists p (untar tarRead p true st).2.fs = false) ∧
      (∀ e, (untar tarRead p true st).1 = Except.error e →
        fileExists p (untar tarRead p true st).2.fs = true)) := by
  refine ⟨unzip_cleanup_general zipRead p st hex, ?_⟩
  have h := unzip_cleanup_general tarRead p st hex
  rw [← untar_eq_unzip] at h
  exact h

/-- C7 (witness): a successful cleanup extraction removes the archive; a
failing one (unreadable archive) leaves it in place. -/
theorem claim7_witness :
    fileExists (strL "root/sub/archive.zip")
        (unzip zipReadEx (strL "root/sub/archive.zip") true stWithArchive).2.fs = false ∧
    fileExists (strL "root/sub/archive.zip")
        (untar badReadEx (strL "root/sub/archive.zip") true stWithArchive).2.fs = true := by
  have h := claim7_cleanup zipReadEx badReadEx (strL "root/sub/archive.zip")
    stWithArchive (by decide)
  exact ⟨h.1.1 (by rfl),
    h.2.2 (Err.badArchive (strL "root/sub/archive.zip")) (by rfl)⟩

theorem pathJoin_eq_append (a b : Path) (hb : b.head? ≠ some '/')
    (ha : a ≠ []) (hal : a.getLast? ≠ some '/') :
    pathJoin a b = a ++ '/' :: b := by
  rw [pathJoin, if_neg hb, if_neg ha, if_neg hal]

/-- The general placement property of `unzip` (shared between the zip and
tar halves): extraction succeeds, writes every entry at
`pathJoin (dirname p) entry` — a path lying under the containing
directory of the archive — and writes nothing else. -/
theorem unzip_placement_general (reader : ArchiveFn) (p : Path) (st : State)
    (c : Content) (entries : List (Path × Content))
    (hc : getFile p st.fs = some c) (hr : reader c = some entries)
    (hdn : dirname p ≠ []) (hds : (dirname p).getLast? ≠ some '/')
    (hent : ∀ e ∈ entries, e.1 ≠ [] ∧ e.1.head? ≠ some '/' ∧ noDotDot e.1 = true) :
    (unzip reader p false st).1 = Except.ok () ∧
    (∀ e ∈ entries,
      fileExists (pathJoin (dirname p) e.1) (unzip reader p false st).2.fs = true ∧
      pathJoin (dirname p) e.1 = dirname p ++ '/' :: e.1 ∧
      startsWith (dirname p ++ ['/']) (pathJoin (dirname p) e.1) = true) ∧
    (∀ q, fileExists q (unzip reader p false st).2.fs = true →
      fileExists q st.fs = true ∨ ∃ e ∈ entries, q = pathJoin (dirname p) e.1) := by
  rw [unzip_ok reader p false st c entries hc hr]
  dsimp only
  rw [if_neg (by simp)]
  refine ⟨rfl, ?_, ?_⟩
  · intro e he
    have hj : pathJoin (dirname p) e.1 = dirname p ++ '/' :: e.1 :=
      pathJoin_eq_append (dirname p) e.1 (hent e he).2.1 hdn hds
    refine ⟨?_, hj, ?_⟩
    · exact (fileExists_writeAll (dirname p) (pathJoin (dirname p) e.1) entries st.fs).mpr
        (Or.inl ⟨e, he, rfl⟩)
    · rw [hj]
      have h := startsWith_append_self (dirname p ++ ['/']) e.1
      rw [List.append_assoc, List.singleton_append] at h
      exact h
  · intro q hq
    rcases (fileExists_writeAll (dirname p) q entries st.fs).mp hq with h | h
    · exact Or.inr h
    · exact Or.inl h

/-- C8: extraction of an archive at `p` (cleanup off) writes every archive
entry at `pathJoin (dirname p) entry` — directly inside the directory
containing the archive, preserving the relative path of the entry, never
nested under the name of the archive itself — every written path extends
`dirname p ++ "/"`, and nothing outside the old files and these entry paths
is written.  Stated for both `unzip` and `untar`. -/
theorem claim8_placement (zipRead tarRead : ArchiveFn) (p : Path) (st : State)
    (c : Content) (entries : List (Path × Content))
    (hc : getFile p st.fs = some c)
    (hdn : dirname p ≠ []) (hds : (dirname p).getLast? ≠ some '/')
    (hent : ∀ e ∈ entries, e.1 ≠ [] ∧ e.1.head? ≠ some '/' ∧ noDotDot e.1 = true) :
    (zipRead c = some entries →
      (unzip zipRead p false st).1 = Except.ok () ∧
      (∀ e ∈ entries,
        fileExists (pathJoin (dirname p) e.1) (unzip zipRead p false st).2.fs = true ∧
        pathJoin (dirname p) e.1 = dirname p ++ '/' :: e.1 ∧
        startsWith (dirname p ++ ['/']) (pathJoin (dirname p) e.1) = true) ∧
      (∀ q, fileExists q (unzip zipRead p false st).2.fs = true →
        fileExists q st.fs = true ∨ ∃ e ∈ entries, q = pathJoin (dirname p) e.1)) ∧
    (tarRead c = some entries →
      (untar tarRead p false st).1 = Except.ok () ∧
      (∀ e ∈ entries,
        fileExists (pathJoin (dirname p) e.1) (untar tarRead p false st).2.fs = true ∧
        pathJoin (dirname p) e.1 = dirname p ++ '/' :: e.1 ∧
        startsWith (dirname p ++ ['/']) (pathJoin (dirname p) e.1) = true) ∧
      (∀ q, fileExists q (untar tarRead p false st).2.fs = true →
        fileExists q st.fs = true ∨ ∃ e ∈ entries, q = pathJoin (dirname p) e.1)) := by
  constructor
  · intro hr
    exact unzip_placement_general zipRead p st c entries hc hr hdn hds hent
  · intro hr
    have h := unzip_placement_general tarRead p st c entries hc hr hdn hds hent
    rw [← untar_eq_unzip] at h
    exact h

/-- C8 (witness): extracting `root/sub/archive.zip` containing
`data/x.csv` yields `root/sub/data/x.csv`, not
`root/sub/archive/data/x.csv`. -/
theorem claim8_witness :
    fileExists (strL "root/sub/data/x.csv")
        (unzip zipReadEx (strL "root/sub/archive.zip") false stWithArchive).2.fs = true ∧
    pathJoin (dirname (strL "root/sub/archive.zip")) (strL "data/x.csv") =
      strL "root/sub/data/x.csv" ∧
    fileExists (strL "root/sub/archive/data/x.csv")
        (unzip zipReadEx (strL "root/sub/archive.zip") false stWithArchive).2.fs = false := by
  have hpj : pathJoin (dirname (strL "root/sub/archive.zip")) (strL "data/x.csv") =
      strL "root/sub/data/x.csv" := by decide
  have h := claim8_placement zipReadEx tarReadEx (strL "root/sub/archive.zip")
    stWithArchive (strL "ZIP") [(strL "data/x.csv", strL "X")]
    (by rfl) (by decide) (by decide) (by decide)
  have hz := h.1 (by rfl)
  have he := (hz.2.1 (strL "data/x.csv", strL "X") (by decide)).1
  refine ⟨?_, hpj, by decide⟩
  rw [← hpj]
  exact he

/-! ## Claim C10: partition and processing order -/

theorem partitionDownloads_spec (d : Manifest) :
    ∀ objs : List Path, (∀ k ∈ objs, lookupKey k d ≠ none) →
      partitionDownloads d objs = Except.ok
        (assetsOfKind ArchiveKind.zip (selectedAssets d objs),
         assetsOfKind ArchiveKind.tar (selectedAssets d objs),
         assetsOfKind ArchiveKind.plain (selectedAssets d objs)) := by
  intro objs
  induction objs with
  | nil => intro _; rfl
  | cons k rest ih =>
    intro hk
    obtain ⟨r, hr⟩ : ∃ r, lookupKey k d = some r := by
      cases hl : lookupKey k d with
      | none => exact absurd hl (hk k (List.mem_cons_self k rest))
      | some r => exact ⟨r, rfl⟩
    rw [partitionDownloads, dictGet, hr]
    dsimp only
    rw [ih fun k2 h2 => hk k2 (List.mem_cons_of_mem k h2)]
    dsimp only
    have hsel : selectedAssets d (k :: rest) = r :: selectedAssets d rest := by
      simp [selectedAssets, List.filterMap_cons, hr]
    rw [hsel]
    cases hcl : classify r.url with
    | zip => simp [assetsOfKind, List.filter_cons, hcl]
    | tar => simp [assetsOfKind, List.filter_cons, hcl]
    | plain => simp [assetsOfKind, List.filter_cons, hcl]

/-- With `force_overwrite = true` and a healthy transport and digest, one
fetch writes the file and records exactly one transfer. -/
theorem download_force_ok (net : NetFn) (md5fn : DigestFn)
    (r : RemoteFileMetadata) (save_dir : Path) (st : State) (c : Content)
    (hn : net r.url = Except.ok c) (hm : md5fn c = r.checksum) :
    download_from_remote net md5fn r save_dir true st =
      (Except.ok (downloadPath r save_dir),
        { st with
          fs := setFile (downloadPath r save_dir) c st.fs
          dirs := (ensureDir (downloadDir r save_dir) st).dirs
          events := st.events ++ [Event.transfer r.url] }) := by
  rw [download_from_remote_eq, if_pos (by simp), hn]
  dsimp only
  rw [verifyChecksum_spec md5fn r (downloadPath r save_dir) _ c
    (getFile_setFile_self (downloadPath r save_dir) c st.fs)]
  rw [if_neg (by rw [hm]; exact not_ne_iff.mpr rfl)]

theorem zip_step_trace (net : NetFn) (md5fn : DigestFn) (zipRead : ArchiveFn)
    (r : RemoteFileMetadata) (save_dir : Path) (cleanup : Bool) (st : State)
    (c : Content) (hn : net r.url = Except.ok c) (hm : md5fn c = r.checksum)
    (hz : (zipRead c).isSome = true) :
    (download_zip_file net md5fn zipRead r save_dir true cleanup st).1 =
      Except.ok () ∧
    (download_zip_file net md5fn zipRead r save_dir true cleanup st).2.events =
      st.events ++ archTrace save_dir cleanup r := by
  obtain ⟨entries, hent⟩ := Option.isSome_iff_exists.mp hz
  have hfetch := download_force_ok net md5fn r save_dir st c hn hm
  rw [download_zip_file, hfetch]
  dsimp only
  rw [unzip_ok zipRead (downloadPath r save_dir) cleanup _ c entries
    (getFile_setFile_self (downloadPath r save_dir) c st.fs) hent]
  cases cleanup with
  | false =>
    refine ⟨rfl, ?_⟩
    dsimp only
    rw [if_neg (by simp)]
    simp [archTrace]
  | true =>
    refine ⟨rfl, ?_⟩
    dsimp only
    rw [if_pos rfl]
    simp [archTrace]

theorem tar_step_trace (net : NetFn) (md5fn : DigestFn) (tarRead : ArchiveFn)
    (r : RemoteFileMetadata) (save_dir : Path) (cleanup : Bool) (st : State)
    (c : Content) (hn : net r.url = Except.ok c) (hm : md5fn c = r.checksum)
    (ht : (tarRead c).isSome = true) :
    (download_tar_file net md5fn tarRead r save_dir true cleanup st).1 =
      Except.ok () ∧
    (download_tar_file net md5fn tarRead r save_dir true cleanup st).2.events =
      st.events ++ archTrace save_dir cleanup r := by
  have h := zip_step_trace net md5fn tarRead r save_dir cleanup st c hn hm ht
  have heq : download_tar_file net md5fn tarRead r save_dir true cleanup st =
      download_zip_file net md5fn tarRead r save_dir true cleanup st := by
    rw [download_tar_file, download_zip_file]
    cases download_from_remote net md5fn r save_dir true st with
    | mk fst snd =>
      cases fst with
      | ok p => exact untar_eq_unzip tarRead p cleanup snd
      | error e => rfl
  rw [heq]
  exact h

theorem processList_trace (step : RemoteFileMetadata → State → Except Err Unit × State)
    (tr : RemoteFileMetadata → List Event) :
    ∀ rs : List RemoteFileMetadata,
      (∀ r ∈ rs, ∀ st : State, (step r st).1 = Except.ok () ∧
        (step r st).2.events = st.events ++ tr r) →
      ∀ st : State, (processList step rs st).1 = Except.ok () ∧
        (processList step rs st).2.events = st.events ++ concatMap tr rs := by
  intro rs
  induction rs with
  | nil =>
    intro _ st
    exact ⟨rfl, by simp [processList, concatMap]⟩
  | cons r rest ih =>
    intro hstep st
    rw [processList]
    cases hs : step r st with
    | mk fst snd =>
      have h1 := hstep r (List.mem_cons_self r rest) st
      rw [hs] at h1
      dsimp only at h1
      obtain ⟨hfst, hsnd⟩ := h1
      subst hfst
      dsimp only
      have h2 := ih (fun r2 hr2 => hstep r2 (List.mem_cons_of_mem r hr2)) snd
      refine ⟨h2.1, ?_⟩
      rw [h2.2, hsnd, concatMap, List.append_assoc]

/-- C10 (counterexample): the claim says the orchestrator fetches each
selected asset (and extracts archives); on the code, even with a valid
one-asset manifest, a healthy network and matching checksum, `downloader`
raises `AttributeError` at line 77 before the partition-and-process stage,
so its event trace is empty — no fetch, no extraction. -/
theorem claim10_counterexample :
    (downloader netEx md5Ex zipReadEx tarReadEx (strL "root")
        (some [(strL "audio", assetPlain)]) PDArg.nonePD none true false
        initState).1 = Except.error Err.attributeError ∧
    (downloader netEx md5Ex zipReadEx tarReadEx (strL "root")
        (some [(strL "audio", assetPlain)]) PDArg.nonePD none true false
        initState).2.events = [] :=
  ⟨rfl, rfl⟩

/-- C10 (amended): the partition-and-process stage (lines 81–105, the code
after the message-building step that actually raises): it partitions the
working set by archive kind into the zip, tar and plain groups, preserving
selection order within each group, and processes the groups in that
deterministic order; each asset is fetched first, and zip/tar assets are
extracted immediately after their fetch with the `cleanup` flag passed
through.  Shown with `force_overwrite = true` (every fetch transfers) and a
healthy transport, digest and archive reader on the selected assets. -/
theorem claim10_process_order (net : NetFn) (md5fn : DigestFn)
    (zipRead tarRead : ArchiveFn) (d : Manifest) (objs : List Path)
    (save_dir : Path) (cleanup : Bool) (st : State)
    (cfn : RemoteFileMetadata → Content)
    (hkeys : ∀ k ∈ objs, lookupKey k d ≠ none)
    (hnet : ∀ r ∈ selectedAssets d objs, net r.url = Except.ok (cfn r))
    (hmd5 : ∀ r ∈ selectedAssets d objs, md5fn (cfn r) = r.checksum)
    (hzip : ∀ r ∈ assetsOfKind ArchiveKind.zip (selectedAssets d objs),
      (zipRead (cfn r)).isSome = true)
    (htar : ∀ r ∈ assetsOfKind ArchiveKind.tar (selectedAssets d objs),
      (tarRead (cfn r)).isSome = true) :
    partitionDownloads d objs = Except.ok
      (assetsOfKind ArchiveKind.zip (selectedAssets d objs),
       assetsOfKind ArchiveKind.tar (selectedAssets d objs),
       assetsOfKind ArchiveKind.plain (selectedAssets d objs)) ∧
    (processDownloads net md5fn zipRead tarRead d objs save_dir true cleanup
        st).1 = Except.ok () ∧
    (processDownloads net md5fn zipRead tarRead d objs save_dir true cleanup
        st).2.events =
      st.events
        ++ concatMap (archTrace save_dir cleanup)
            (assetsOfKind ArchiveKind.zip (selectedAssets d objs))
        ++ concatMap (archTrace save_dir cleanup)
            (assetsOfKind ArchiveKind.tar (selectedAssets d objs))
        ++ concatMap plainTrace
            (assetsOfKind ArchiveKind.plain (selectedAssets d objs)) := by
  have hpart := partitionDownloads_spec d objs hkeys
  refine ⟨hpart, ?_⟩
  have hofk : ∀ kind r, r ∈ assetsOfKind kind (selectedAssets d objs) →
      r ∈ selectedAssets d objs := by
    intro kind r hr
    exact List.mem_of_mem_filter hr
  have hz := processList_trace
    (fun r => download_zip_file net md5fn zipRead r save_dir true cleanup)
    (archTrace save_dir cleanup)
    (assetsOfKind ArchiveKind.zip (selectedAssets d objs))
    (fun r hr st2 => zip_step_trace net md5fn zipRead r save_dir cleanup st2
      (cfn r) (hnet r (hofk _ r hr)) (hmd5 r (hofk _ r hr)) (hzip r hr))
  have ht := processList_trace
    (fun r => download_tar_file net md5fn tarRead r save_dir true cleanup)
    (archTrace save_dir cleanup)
    (assetsOfKind ArchiveKind.tar (selectedAssets d objs))
    (fun r hr st2 => tar_step_trace net md5fn tarRead r save_dir cleanup st2
      (cfn r) (hnet r (hofk _ r hr)) (hmd5 r (hofk _ r hr)) (htar r hr))
  have hp := processList_trace
    (fun r st3 =>
      match download_from_remote net md5fn r save_dir true st3 with
      | (Except.error e, st4) => (Except.error e, st4)
      | (Except.ok _, st4) => (Except.ok (), st4))
    plainTrace
    (assetsOfKind ArchiveKind.plain (selectedAssets d objs))
    (fun r hr st3 => by
      have hfetch := download_force_ok net md5fn r save_dir st3 (cfn r)
        (hnet r (hofk _ r hr)) (hmd5 r (hofk _ r hr))
      dsimp only
      rw [hfetch]
      exact ⟨rfl, rfl⟩)
  rw [processDownloads, hpart]
  dsimp only
  cases hs1 : processList
      (fun r => download_zip_file net md5fn zipRead r save_dir true cleanup)
      (assetsOfKind ArchiveKind.zip (selectedAssets d objs)) st with
  | mk f1 s1 =>
    have h1 := hz st
    rw [hs1] at h1
    dsimp only at h1
    obtain ⟨hf1, hs1e⟩ := h1
    subst hf1
    dsimp only
    cases hs2 : processList
        (fun r => download_tar_file net md5fn tarRead r save_dir true cleanup)
        (assetsOfKind ArchiveKind.tar (selectedAssets d objs)) s1 with
    | mk f2 s2 =>
      have h2 := ht s1
      rw [hs2] at h2
      dsimp only at h2
      obtain ⟨hf2, hs2e⟩ := h2
      subst hf2
      dsimp only
      have h3 := hp s2
      refine ⟨h3.1, ?_⟩
      rw [h3.2, hs2e, hs1e, List.append_assoc, List.append_assoc]

/-- C10 (witness): three fixture assets (plain, zip, tar in manifest
order); the stage partitions them into the zip/tar/plain groups and its
trace is the zip block, then the tar block, then the plain block. -/
theorem claim10_witness :
    partitionDownloads d10 objs10 = Except.ok
      (assetsOfKind ArchiveKind.zip (selectedAssets d10 objs10),
       assetsOfKind ArchiveKind.tar (selectedAssets d10 objs10),
       assetsOfKind ArchiveKind.plain (selectedAssets d10 objs10)) ∧
    (processDownloads netEx md5Ex zipReadEx tarReadEx d10 objs10 (strL "root")
        true false initState).1 = Except.ok () ∧
    (processDownloads netEx md5Ex zipReadEx tarReadEx d10 objs10 (strL "root")
        true false initState).2.events =
      initState.events
        ++ concatMap (archTrace (strL "root") false)
            (assetsOfKind ArchiveKind.zip (selectedAssets d10 objs10))
        ++ concatMap (archTrace (strL "root") false)
            (assetsOfKind ArchiveKind.tar (selectedAssets d10 objs10))
        ++ concatMap plainTrace
            (assetsOfKind ArchiveKind.plain (selectedAssets d10 objs10)) :=
  claim10_process_order netEx md5Ex zipReadEx tarReadEx d10 objs10
    (strL "root") false initState cfnEx (by decide) (by decide) (by decide)
    (by decide) (by decide)

end Mirdata
